import Mathlib

/-!
Verification of the XYO origin-chain core against its specification.

The development shallowly embeds the TypeScript sources:
byte buffers become `List Nat` (each entry one byte), JS objects used as
string-keyed maps become association lists, fallible code returns `Except`,
and `Promise`-driven control flow is modelled as explicit state passing.
-/

/-- Big-endian byte encoding of a natural number into `w` bytes, as produced by
Node `Buffer.writeUInt8 / writeUInt16BE / writeUInt32BE` (values larger than the
field are truncated modulo the field size; Node would assert on them, so the
theorems below restrict to in-range values). -/
def beBytes : Nat → Nat → List Nat
  | 0, _ => []
  | w + 1, n => (n / 256 ^ w) % 256 :: beBytes w n

/-- Big-endian read of a byte list, as performed by Node `Buffer.readUInt32BE`
(generalised to any width: fold the bytes most-significant first). -/
def readUIntBE (b : List Nat) : Nat :=
  b.foldl (fun acc byte => acc * 256 + byte) 0

/-- Error kinds thrown by the embedded code: the two XyoError types appearing in
the sources (ERR_CREATOR_MAPPING, ERR_CRITICAL), a marker for an error rethrown
from a dispatched sub-deserializer, and the JS TypeError raised by dereferencing
an undefined index object. -/
inductive XyoErrorType where
  | errCreatorMapping
  | errCritical
  | errSubDeserialize
  | typeError
  deriving DecidableEq

/-- Embedding of XYOSerializer (xyo-serializer.ts is not among the sources, but
xyo-packer.ts uses exactly these members: description.major, description.minor,
sizeOfBytesToRead, id, serialize, deserialize). `ser`/`deser` are the
serializer-specific codec functions; `deser` returns `none` where the TS code
would throw. -/
structure XYOSerializer (V : Type) where
  major : Nat
  minor : Nat
  sizeOfBytesToRead : Nat
  ser : V → List Nat
  deser : List Nat → Option V

/-- The serializer's two-byte id buffer: its major byte then its minor byte
(a Node buffer stores each entry modulo 256). -/
def XYOSerializer.id {V : Type} (s : XYOSerializer V) : List Nat :=
  [s.major % 256, s.minor % 256]

/-- Association-list read, modelling a JS object property access
(`obj[k]`, `undefined` becoming `none`). -/
def assocGet {α β : Type} [DecidableEq α] : List (α × β) → α → Option β
  | [], _ => none
  | (k', w) :: rest, k => if k' = k then some w else assocGet rest k

/-- Association-list write, modelling a JS object property assignment
(`obj[k] = v`: overwrite if the key exists, append otherwise). -/
def assocSet {α β : Type} [DecidableEq α] : List (α × β) → α → β → List (α × β)
  | [], k, v => [(k, v)]
  | (k', w) :: rest, k, v =>
    if k' = k then (k, v) :: rest else (k', w) :: assocSet rest k v

/-- Embedding of the XyoPacker state: the serializer collection, the name index
and the two-level (major, minor) index, exactly the three private fields of
`class XyoPacker`. -/
structure XyoPacker (V : Type) where
  serializerDeserializersCollection : List (XYOSerializer V)
  serializerDeserializersByNameIndex : List (String × Nat)
  serializerDeserializerMajorMinorIndex : List (Nat × List (Nat × Nat))

/-- A freshly constructed packer: all three fields empty. -/
def XyoPacker.empty {V : Type} : XyoPacker V := ⟨[], [], []⟩

/-- The two JS lines
`index[major] = index[major] || {}; index[major][minor] = i`
updating the two-level (major, minor) index. -/
def mmSet (idx : List (Nat × List (Nat × Nat))) (M m v : Nat) :
    List (Nat × List (Nat × Nat)) :=
  assocSet idx M (assocSet ((assocGet idx M).getD []) m v)

/-- Embedding of `XyoPacker.registerSerializerDeserializer`: push the serializer
onto the collection, then record its position (`collection.length - 1`) in the
name index and in the (major, minor) index. Note the code never rejects a
duplicate (major, minor): the index entry is simply overwritten. -/
def registerSerializerDeserializer {V : Type} (p : XyoPacker V) (name : String)
    (serializerDeserializer : XYOSerializer V) : XyoPacker V :=
  let collection := p.serializerDeserializersCollection ++ [serializerDeserializer]
  let index := collection.length - 1
  { serializerDeserializersCollection := collection
    serializerDeserializersByNameIndex :=
      assocSet p.serializerDeserializersByNameIndex name index
    serializerDeserializerMajorMinorIndex :=
      mmSet p.serializerDeserializerMajorMinorIndex
        serializerDeserializer.major serializerDeserializer.minor index }

/-- The packer obtained from a fresh `XyoPacker` by a sequence of
`registerSerializerDeserializer` calls (a startup registration trace). -/
def applyRegs {V : Type} (regs : List (String × XYOSerializer V)) : XyoPacker V :=
  regs.foldl (fun p r => registerSerializerDeserializer p r.1 r.2) XyoPacker.empty

/-- Embedding of `XyoPacker.encodedSize`: no bytes when `sizeOfBytesToRead` is
falsy (0), otherwise a 1/2/4-byte big-endian field holding
`sizeOfData + sizeOfBytesToRead` (the length counts itself); the switch has no
other case, so any other width leaves the freshly allocated buffer zero-filled. -/
def encodedSize (sizeOfData : Nat) (sizeOfBytesToRead : Nat) : List Nat :=
  if sizeOfBytesToRead = 0 then []
  else if sizeOfBytesToRead = 1 then beBytes 1 (sizeOfData + sizeOfBytesToRead)
  else if sizeOfBytesToRead = 2 then beBytes 2 (sizeOfData + sizeOfBytesToRead)
  else if sizeOfBytesToRead = 4 then beBytes 4 (sizeOfData + sizeOfBytesToRead)
  else List.replicate sizeOfBytesToRead 0

/-- Embedding of `XyoPacker.makeTyped`: the serializer's 2-byte id, the encoded
size field, then the payload. -/
def makeTyped {V : Type} (data : List Nat) (config : XYOSerializer V) : List Nat :=
  config.id ++ encodedSize data.length config.sizeOfBytesToRead ++ data

/-- Embedding of `XyoPacker.makeUntyped`: the encoded size field then the
payload (no id bytes). -/
def makeUntyped {V : Type} (data : List Nat) (config : XYOSerializer V) : List Nat :=
  encodedSize data.length config.sizeOfBytesToRead ++ data

/-- Embedding of `XyoPacker.serialize`. The nested truthiness and
`typeof idx === number` checks become the two association-list lookups, the
`index < collection.length` bounds check becomes the `getElem?` access, and the
`typed` parameter (`undefined | true | false` selecting raw/typed/untyped)
becomes `Option Bool`. Every fall-through path ends in the single
ERR_CREATOR_MAPPING throw. -/
def XyoPacker.serialize {V : Type} (p : XyoPacker V) (object : V)
    (major minor : Nat) (typed : Option Bool) : Except XyoErrorType (List Nat) :=
  match assocGet p.serializerDeserializerMajorMinorIndex major with
  | some minorIndex =>
    match assocGet minorIndex minor with
    | some index =>
      match p.serializerDeserializersCollection[index]? with
      | some serializer =>
        let serialized := serializer.ser object
        match typed with
        | none => .ok serialized
        | some true => .ok (makeTyped serialized serializer)
        | some false => .ok (makeUntyped serialized serializer)
      | none => .error .errCreatorMapping
    | none => .error .errCreatorMapping
  | none => .error .errCreatorMapping

/-- Embedding of `XyoPacker.deserialize`: buffers shorter than two bytes fail
immediately; otherwise the first byte is the major, the second the minor, the
registered serializer is looked up, and its deserializer is dispatched on
`buffer.slice(2)` (an error from it is rethrown, modelled by
`errSubDeserialize`); every lookup failure ends in ERR_CREATOR_MAPPING. -/
def XyoPacker.deserialize {V : Type} (p : XyoPacker V) (buffer : List Nat) :
    Except XyoErrorType V :=
  if buffer.length < 2 then .error .errCreatorMapping
  else
    match assocGet p.serializerDeserializerMajorMinorIndex buffer.headI with
    | some minorIndex =>
      match assocGet minorIndex (buffer.drop 1).headI with
      | some index =>
        match p.serializerDeserializersCollection[index]? with
        | some serializer =>
          match serializer.deser (buffer.drop 2) with
          | some value => .ok value
          | none => .error .errSubDeserialize
        | none => .error .errCreatorMapping
      | none => .error .errCreatorMapping
    | none => .error .errCreatorMapping

/-- Embedding of `XyoPacker.getSerializerByMajorMinor`. The code dereferences
`index[major][minor]` without guarding `index[major]`: an unregistered major
raises a TypeError (modelled as `.error .typeError`); an unregistered minor
makes `index` the JS `undefined`, so `index < collection.length` is false and
the function returns `undefined` (`.ok none`); otherwise the collection entry
is returned (out-of-range also yields `undefined`). -/
def XyoPacker.getSerializerByMajorMinor {V : Type} (p : XyoPacker V)
    (major minor : Nat) : Except XyoErrorType (Option (XYOSerializer V)) :=
  match assocGet p.serializerDeserializerMajorMinorIndex major with
  | none => .error .typeError
  | some minorIndex =>
    match assocGet minorIndex minor with
    | none => .ok none
    | some index => .ok p.serializerDeserializersCollection[index]?

/-- The index recorded for a (major, minor) pair: the composition of the two
association-list lookups performed by serialize/deserialize. -/
def mmLookup {V : Type} (p : XyoPacker V) (M m : Nat) : Option Nat :=
  (assocGet p.serializerDeserializerMajorMinorIndex M).bind
    fun minorIndex => assocGet minorIndex m

/-- The serializer a (major, minor) pair resolves to: the recorded index
followed by the bounds-checked collection access. -/
def lookupSerializer {V : Type} (p : XyoPacker V) (M m : Nat) :
    Option (XYOSerializer V) :=
  (mmLookup p M m).bind
    fun index => p.serializerDeserializersCollection[index]?

/-- Embedding of the per-peer origin-chain state held behind
IXyoOriginChainRepository (spec section 4.2): the pending-block index, the
previous hash, the current and waiting signer queues, and the next-public-key
commitment. `H`, `S`, `P` are the opaque hash, signer and public-key types. -/
structure XyoOriginChainState (H S P : Type) where
  index : Nat
  previousHash : Option H
  currentSigners : List S
  waitingSigners : List S
  nextPublicKey : Option P

/-- Modelled from the spec: the implementation of
`IXyoOriginChainRepository.updateOriginChainState` is not among the given
sources (only the interface declaration and its doc comment are). Following
spec section 4.2 and the interface doc comment, the call atomically sets
`previousHash` to the given hash, increments `index` by one, drains the front
waiting signer (if any) onto the tail of the current signers, and clears
`nextPublicKey`. -/
def updateOriginChainState {H S P : Type} (s : XyoOriginChainState H S P)
    (hash : H) : XyoOriginChainState H S P :=
  { index := s.index + 1
    previousHash := some hash
    currentSigners :=
      match s.waitingSigners with
      | [] => s.currentSigners
      | w :: _ => s.currentSigners ++ [w]
    waitingSigners := s.waitingSigners.tail
    nextPublicKey := none }

/-- The genesis (empty) origin-chain state: index 0, no previous hash, no
signers, no commitment. -/
def genesisState {H S P : Type} : XyoOriginChainState H S P :=
  ⟨0, none, [], [], none⟩

/-- One participant's contribution to a block, as seen by the chain verifier:
the ChainIndex heuristic, the PreviousHash heuristic (byte string), the
NextPublicKey heuristic (byte string), and the participant's public keys. -/
structure XyoVerifierBlock where
  chainIndex : Option Nat
  previousHash : Option (List Nat)
  nextPublicKey : Option (List Nat)
  publicKeys : List (List Nat)

/-- Modelled from the spec: `XyoOriginChainVerifier.verify` is not among the
given sources (only its jest spec is). Following spec section 4.5, walk the
blocks carrying the expected index and the previous block: each block must pass
the internal-invariant and signature checks (abstracted into the parameter
`intact`, spec checks 1 and 5), carry the expected ChainIndex (check 2), and,
from the second block on, carry a PreviousHash byte-equal to the hash of the
previous block (check 3) and honour the previous block's NextPublicKey
commitment (check 4). -/
def verifyOriginChainFrom (intact : XyoVerifierBlock → Bool)
    (hash : XyoVerifierBlock → List Nat) :
    Nat → Option XyoVerifierBlock → List XyoVerifierBlock → Bool
  | _, _, [] => true
  | expected, previous, b :: rest =>
    intact b &&
    (b.chainIndex == some expected) &&
    (match previous with
     | none => true
     | some pb =>
       (b.previousHash == some (hash pb)) &&
       (match pb.nextPublicKey with
        | none => true
        | some pk => b.publicKeys.contains pk)) &&
    verifyOriginChainFrom intact hash (expected + 1) (some b) rest

/-- Modelled from the spec: entry point of the verifier. The expected index of
the earliest block supplied is the ChainIndex that block itself declares (a
chain may be a tail, spec section 4.5 check 2 and testable property 3); a block
without a ChainIndex is invalid (scenario S2). -/
def verifyOriginChain (intact : XyoVerifierBlock → Bool)
    (hash : XyoVerifierBlock → List Nat) (blocks : List XyoVerifierBlock) : Bool :=
  match blocks with
  | [] => true
  | b :: _ =>
    match b.chainIndex with
    | none => false
    | some base => verifyOriginChainFrom intact hash base none blocks

/-- Embedding of `XyoTcpNetworkPipe.padBufferWithSize`: allocate a 4-byte
buffer, `writeUInt32BE(b.length + 4)` into it, and prepend it to the message. -/
def padBufferWithSize (b : List Nat) : List Nat :=
  beBytes 4 (b.length + 4) ++ b

/-- Embedding of the byte stream `XyoTcpNetworkPipe.send` hands to
`socket.write`: the message padded with its size header. -/
def tcpSendWrittenBytes (message : List Nat) : List Nat :=
  padBufferWithSize message

/-- Modelled from the spec: XYO_TCP_CATALOGUE_LENGTH_IN_BYTES lives in
xyo-tcp-network-constants.ts, which is not among the given sources; the spec
(section 4.4) fixes the catalogue-item bitmask to 4 bytes and the
catalogue-header size constant to 4. -/
def xyoTcpCatalogueLengthInBytes : Nat := 4

/-- Modelled from the spec: XYO_TCP_CATALOGUE_SIZE_OF_SIZE_BYTES lives in
xyo-tcp-network-constants.ts, which is not among the given sources; the spec
(section 4.4) makes the catalogue-header size field a single byte. -/
def xyoTcpCatalogueSizeOfSizeBytes : Nat := 1

/-- The one-byte buffer holding the catalogue length constant
(`writeUInt8(XYO_TCP_CATALOGUE_LENGTH_IN_BYTES)` into a buffer of
XYO_TCP_CATALOGUE_SIZE_OF_SIZE_BYTES bytes). -/
def catalogueSizeBytes : List Nat := [xyoTcpCatalogueLengthInBytes % 256]

/-- The first message built by `XyoBoundWitnessInteraction.run`: the
catalogue-size byte, the 4-byte big-endian catalogue bitmask, then the
untyped-serialized first transfer. -/
def boundWitnessRequestBytes (catalogueItem : Nat) (t1bytes : List Nat) : List Nat :=
  catalogueSizeBytes ++ beBytes xyoTcpCatalogueLengthInBytes catalogueItem ++ t1bytes

/-- Embedding of `XyoBoundWitnessInteraction.run` (initiator side). The
asynchronous method suspends, in order, at: 1 `await startBoundWitness`,
2 `await incomingData` for transfer 1, 3 the first awaited `pipe.send`,
4 `await incomingData` integrating the response, 5 the second `pipe.send`
(awaited, no response), 6 `await pipe.close` (after the disconnect listener is
unregistered). The pipe's disconnect callback only sets a `disconnected` flag;
`fireAt = some k` means the peer-disconnect event fires while suspended at
point `k`, so the flag is visible to every later check. The code checks the
flag on entry and after suspensions 1, 2 and 4; when a check sees the flag it
falls through to `reject` with the critical peer-disconnected XyoError. The
result pairs the list of (message, awaitResponse) sends with the settled
promise value; `catalogueItem` is `CatalogueItem.BOUND_WITNESS`, whose numeric
value is not among the given sources. -/
def interactionRun {β : Type} (catalogueItem : Nat) (t1bytes t3bytes : List Nat)
    (block : β) (fireAt : Option Nat) :
    List (List Nat × Bool) × Except XyoErrorType β :=
  let disconnectedBy : Nat → Bool := fun c =>
    match fireAt with
    | none => false
    | some k => decide (k ≤ c)
  if disconnectedBy 0 then ([], .error .errCritical)
  else if disconnectedBy 1 then ([], .error .errCritical)
  else if disconnectedBy 2 then ([], .error .errCritical)
  else
    let bytesToSend := boundWitnessRequestBytes catalogueItem t1bytes
    if disconnectedBy 4 then ([(bytesToSend, true)], .error .errCritical)
    else ([(bytesToSend, true), (t3bytes, false)], .ok block)

/-- A sample fixed-size serializer on Nat (sizeOfBytesToRead 0, one payload
byte), used to instantiate the claim theorems on concrete inputs. -/
def sampleRawSerializer : XYOSerializer Nat :=
  { major := 2, minor := 3, sizeOfBytesToRead := 0
    ser := fun n => [n % 256]
    deser := fun bytes => some bytes.headI }

/-- A sample serializer on Nat with a 1-byte size field, used to instantiate
the claim theorems on concrete inputs. -/
def sampleSizedSerializer : XYOSerializer Nat :=
  { major := 4, minor := 5, sizeOfBytesToRead := 1
    ser := fun n => [n % 256]
    deser := fun bytes => some (bytes.drop 1).headI }

/-- A sample serializer sharing (major, minor) with `sampleRawSerializer` but
differing from it, used to exercise duplicate registration. -/
def sampleAltSerializer : XYOSerializer Nat :=
  { major := 2, minor := 3, sizeOfBytesToRead := 1
    ser := fun n => [n % 256]
    deser := fun _ => none }

/-- A packer holding the two sample serializers. -/
def samplePacker : XyoPacker Nat :=
  applyRegs [("raw", sampleRawSerializer), ("sized", sampleSizedSerializer)]

lemma assocGet_assocSet_self {α β : Type} [DecidableEq α] (l : List (α × β))
    (k : α) (v : β) : assocGet (assocSet l k v) k = some v := by
  induction l with
  | nil => simp [assocSet, assocGet]
  | cons p rest ih =>
    obtain ⟨k', w⟩ := p
    by_cases h : k' = k <;> simp [assocSet, assocGet, h, ih]

lemma assocGet_assocSet_ne {α β : Type} [DecidableEq α] (l : List (α × β))
    (k k₂ : α) (v : β) (hne : k ≠ k₂) :
    assocGet (assocSet l k v) k₂ = assocGet l k₂ := by
  induction l with
  | nil => simp [assocSet, assocGet, hne]
  | cons p rest ih =>
    obtain ⟨k', w⟩ := p
    by_cases h : k' = k
    · subst h
      simp [assocSet, assocGet, hne, Ne.symm hne]
    · by_cases h2 : k' = k₂ <;>
        simp [assocSet, assocGet, h, h2, ih, Ne.symm hne]

lemma beBytes_length (w n : Nat) : (beBytes w n).length = w := by
  induction w generalizing n with
  | zero => simp [beBytes]
  | succ w ih => simp [beBytes, ih]

lemma readUIntBE_beBytes_one (n : Nat) : readUIntBE (beBytes 1 n) = n % 256 := by
  simp [beBytes, readUIntBE]

lemma readUIntBE_beBytes_two (n : Nat) : readUIntBE (beBytes 2 n) = n % 65536 := by
  simp only [beBytes, readUIntBE, List.foldl]
  norm_num
  omega

lemma readUIntBE_beBytes_four (n : Nat) :
    readUIntBE (beBytes 4 n) = n % 4294967296 := by
  simp only [beBytes, readUIntBE, List.foldl]
  norm_num
  omega

lemma lookupSerializer_elim {V : Type} (p : XyoPacker V) (M m : Nat)
    (s : XYOSerializer V) (hs : lookupSerializer p M m = some s) :
    ∃ minorIndex index,
      assocGet p.serializerDeserializerMajorMinorIndex M = some minorIndex ∧
      assocGet minorIndex m = some index ∧
      p.serializerDeserializersCollection[index]? = some s := by
  unfold lookupSerializer mmLookup at hs
  cases h1 : assocGet p.serializerDeserializerMajorMinorIndex M with
  | none => simp [h1] at hs
  | some minorIndex =>
    simp only [h1, Option.some_bind] at hs
    cases h2 : assocGet minorIndex m with
    | none => simp [h2] at hs
    | some index =>
      simp only [h2, Option.some_bind] at hs
      exact ⟨minorIndex, index, rfl, h2, hs⟩

lemma serialize_typed_of_lookup {V : Type} (p : XyoPacker V) (M m : Nat)
    (s : XYOSerializer V) (v : V) (hs : lookupSerializer p M m = some s) :
    p.serialize v M m (some true) = .ok (makeTyped (s.ser v) s) := by
  obtain ⟨minorIndex, index, h1, h2, h3⟩ := lookupSerializer_elim p M m s hs
  unfold XyoPacker.serialize
  simp only [h1, h2, h3]

lemma serialize_untyped_of_lookup {V : Type} (p : XyoPacker V) (M m : Nat)
    (s : XYOSerializer V) (v : V) (hs : lookupSerializer p M m = some s) :
    p.serialize v M m (some false) = .ok (makeUntyped (s.ser v) s) := by
  obtain ⟨minorIndex, index, h1, h2, h3⟩ := lookupSerializer_elim p M m s hs
  unfold XyoPacker.serialize
  simp only [h1, h2, h3]

lemma deserialize_ok_of_lookup {V : Type} (p : XyoPacker V) (b : List Nat)
    (s : XYOSerializer V) (v : V) (h2le : 2 ≤ b.length)
    (hs : lookupSerializer p b.headI (b.drop 1).headI = some s)
    (hd : s.deser (b.drop 2) = some v) :
    p.deserialize b = .ok v := by
  obtain ⟨minorIndex, index, h1, h2, h3⟩ := lookupSerializer_elim p _ _ s hs
  unfold XyoPacker.deserialize
  rw [if_neg (by omega)]
  simp only [h1, h2, h3, hd]

lemma deserialize_err_of_lookup {V : Type} (p : XyoPacker V) (b : List Nat)
    (s : XYOSerializer V) (h2le : 2 ≤ b.length)
    (hs : lookupSerializer p b.headI (b.drop 1).headI = some s)
    (hd : s.deser (b.drop 2) = none) :
    p.deserialize b = .error .errSubDeserialize := by
  obtain ⟨minorIndex, index, h1, h2, h3⟩ := lookupSerializer_elim p _ _ s hs
  unfold XyoPacker.deserialize
  rw [if_neg (by omega)]
  simp only [h1, h2, h3, hd]

lemma deserialize_err_of_no_lookup {V : Type} (p : XyoPacker V) (b : List Nat)
    (h2le : 2 ≤ b.length)
    (hs : lookupSerializer p b.headI (b.drop 1).headI = none) :
    p.deserialize b = .error .errCreatorMapping := by
  unfold lookupSerializer mmLookup at hs
  unfold XyoPacker.deserialize
  rw [if_neg (by omega)]
  cases h1 : assocGet p.serializerDeserializerMajorMinorIndex b.headI with
  | none => rfl
  | some minorIndex =>
    simp only [h1, Option.some_bind] at hs
    cases h2 : assocGet minorIndex (b.drop 1).headI with
    | none => simp only [h1, h2]
    | some index =>
      simp only [h2, Option.some_bind] at hs
      simp only [h1, h2, hs]

lemma register_collection {V : Type} (p : XyoPacker V) (n : String)
    (sd : XYOSerializer V) :
    (registerSerializerDeserializer p n sd).serializerDeserializersCollection =
      p.serializerDeserializersCollection ++ [sd] := rfl

lemma register_mmIndex {V : Type} (p : XyoPacker V) (n : String)
    (sd : XYOSerializer V) :
    (registerSerializerDeserializer p n sd).serializerDeserializerMajorMinorIndex =
      mmSet p.serializerDeserializerMajorMinorIndex sd.major sd.minor
        p.serializerDeserializersCollection.length := by
  simp [registerSerializerDeserializer]

lemma mmLookup_register {V : Type} (p : XyoPacker V) (n : String)
    (sd : XYOSerializer V) (M m : Nat) :
    mmLookup (registerSerializerDeserializer p n sd) M m =
      if sd.major = M ∧ sd.minor = m then
        some p.serializerDeserializersCollection.length
      else mmLookup p M m := by
  unfold mmLookup
  rw [register_mmIndex]
  unfold mmSet
  by_cases hM : sd.major = M
  · subst hM
    rw [assocGet_assocSet_self, Option.some_bind]
    by_cases hm : sd.minor = m
    · subst hm
      rw [assocGet_assocSet_self, if_pos ⟨rfl, rfl⟩]
    · rw [assocGet_assocSet_ne _ _ _ _ hm,
        if_neg (by exact fun hc => hm hc.2)]
      cases h0 : assocGet p.serializerDeserializerMajorMinorIndex sd.major with
      | none => simp [assocGet]
      | some inner => simp
  · rw [assocGet_assocSet_ne _ _ _ _ hM,
      if_neg (by exact fun hc => hM hc.1)]

lemma applyRegs_append_singleton {V : Type} (regs : List (String × XYOSerializer V))
    (r : String × XYOSerializer V) :
    applyRegs (regs ++ [r]) =
      registerSerializerDeserializer (applyRegs regs) r.1 r.2 := by
  simp [applyRegs, List.foldl_append]

lemma applyRegs_spec {V : Type} (M m : Nat)
    (regs : List (String × XYOSerializer V)) :
    ((assocGet (applyRegs regs).serializerDeserializerMajorMinorIndex M).isSome =
        regs.any fun q => decide (q.2.major = M))
  ∧ (∀ idx, mmLookup (applyRegs regs) M m = some idx →
        idx < (applyRegs regs).serializerDeserializersCollection.length)
  ∧ (lookupSerializer (applyRegs regs) M m =
        ((regs.filter fun q => decide (q.2.major = M ∧ q.2.minor = m)).getLast?).map
          Prod.snd) := by
  induction regs using List.reverseRecOn with
  | nil =>
    refine ⟨by simp [applyRegs, XyoPacker.empty, assocGet], ?_, ?_⟩
    · intro idx h
      simp [applyRegs, XyoPacker.empty, mmLookup, assocGet] at h
    · simp [applyRegs, XyoPacker.empty, lookupSerializer, mmLookup, assocGet]
  | append_singleton regs r ih =>
    obtain ⟨ih1, ih2, ih3⟩ := ih
    rw [applyRegs_append_singleton]
    refine ⟨?_, ?_, ?_⟩
    · rw [register_mmIndex]
      unfold mmSet
      by_cases hM : r.2.major = M
      · rw [hM, assocGet_assocSet_self]
        simp [hM]
      · rw [assocGet_assocSet_ne _ _ _ _ hM, ih1]
        simp [hM]
    · intro idx h
      rw [mmLookup_register] at h
      rw [register_collection]
      by_cases hc : r.2.major = M ∧ r.2.minor = m
      · rw [if_pos hc] at h
        simp only [Option.some.injEq] at h
        simp [← h]
      · rw [if_neg hc] at h
        have := ih2 idx h
        simp only [List.length_append, List.length_cons, List.length_nil]
        omega
    · unfold lookupSerializer
      rw [mmLookup_register, register_collection]
      by_cases hc : r.2.major = M ∧ r.2.minor = m
      · rw [if_pos hc, Option.some_bind]
        rw [List.getElem?_concat_length]
        rw [List.filter_append]
        have hr : (List.filter (fun q => decide (q.2.major = M ∧ q.2.minor = m)) [r]) =
            [r] := by
          simp [hc.1, hc.2]
        rw [hr, List.getLast?_concat]
        rfl
      · rw [if_neg hc]
        have hfilter :
            (regs ++ [r]).filter (fun q => decide (q.2.major = M ∧ q.2.minor = m)) =
              regs.filter fun q => decide (q.2.major = M ∧ q.2.minor = m) := by
          rw [List.filter_append]
          simp [hc]
        rw [hfilter, ← ih3]
        unfold lookupSerializer
        cases hml : mmLookup (applyRegs regs) M m with
        | none => rfl
        | some idx =>
          have hlt := ih2 idx hml
          rw [Option.some_bind, Option.some_bind,
            List.getElem?_append_left hlt]

lemma getSerializerByMajorMinor_eq {V : Type} (p : XyoPacker V) (M m : Nat) :
    p.getSerializerByMajorMinor M m =
      match assocGet p.serializerDeserializerMajorMinorIndex M with
      | none => .error .typeError
      | some _ => .ok (lookupSerializer p M m) := by
  unfold XyoPacker.getSerializerByMajorMinor lookupSerializer mmLookup
  cases h1 : assocGet p.serializerDeserializerMajorMinorIndex M with
  | none => rfl
  | some minorIndex =>
    cases h2 : assocGet minorIndex m with
    | none => simp [h2]
    | some index => simp [h2]

lemma foldl_update_index {H S P : Type} (hashes : List H) :
    ∀ s : XyoOriginChainState H S P,
      (hashes.foldl updateOriginChainState s).index = s.index + hashes.length := by
  induction hashes with
  | nil => intro s; simp
  | cons h t ih =>
    intro s
    rw [List.foldl_cons, ih]
    simp [updateOriginChainState]
    omega

lemma verifyFrom_linkage (intact : XyoVerifierBlock → Bool)
    (hash : XyoVerifierBlock → List Nat) :
    ∀ (blocks : List XyoVerifierBlock) (expected : Nat)
      (previous : Option XyoVerifierBlock),
      verifyOriginChainFrom intact hash expected previous blocks = true →
      (∀ k bk, blocks[k]? = some bk → bk.chainIndex = some (expected + k))
    ∧ (∀ pb b0, previous = some pb → blocks[0]? = some b0 →
        b0.previousHash = some (hash pb))
    ∧ (∀ k bk bk1, blocks[k]? = some bk → blocks[k + 1]? = some bk1 →
        bk1.previousHash = some (hash bk)) := by
  intro blocks
  induction blocks with
  | nil =>
    intro expected previous hv
    refine ⟨?_, ?_, ?_⟩ <;> intros <;> simp_all
  | cons b rest ih =>
    intro expected previous hv
    unfold verifyOriginChainFrom at hv
    simp only [Bool.and_eq_true] at hv
    obtain ⟨⟨⟨hint, hidx⟩, hprev⟩, hrest⟩ := hv
    have hidx2 : b.chainIndex = some expected := by
      exact beq_iff_eq.mp hidx
    obtain ⟨ih1, ih2, ih3⟩ := ih (expected + 1) (some b) hrest
    refine ⟨?_, ?_, ?_⟩
    · intro k bk hk
      cases k with
      | zero =>
        rw [List.getElem?_cons_zero, Option.some.injEq] at hk
        rw [← hk, hidx2]
        rfl
      | succ j =>
        rw [List.getElem?_cons_succ] at hk
        have hj := ih1 j bk hk
        rw [hj]
        congr 1
        omega
    · intro pb b0 hpv h0
      rw [hpv] at hprev
      simp only [Bool.and_eq_true] at hprev
      rw [List.getElem?_cons_zero, Option.some.injEq] at h0
      rw [← h0]
      exact beq_iff_eq.mp hprev.1
    · intro k bk bk1 hk hk1
      cases k with
      | zero =>
        rw [List.getElem?_cons_zero, Option.some.injEq] at hk
        rw [List.getElem?_cons_succ] at hk1
        rw [← hk]
        exact ih2 b bk1 rfl hk1
      | succ j =>
        rw [List.getElem?_cons_succ] at hk
        rw [List.getElem?_cons_succ] at hk1
        exact ih3 j bk bk1 hk hk1

lemma getSerializerByMajorMinor_major_present {V : Type} (p : XyoPacker V)
    (M m : Nat)
    (hmaj : (assocGet p.serializerDeserializerMajorMinorIndex M).isSome = true) :
    p.getSerializerByMajorMinor M m = .ok (lookupSerializer p M m) := by
  rw [getSerializerByMajorMinor_eq]
  cases h1 : assocGet p.serializerDeserializerMajorMinorIndex M with
  | none => rw [h1] at hmaj; simp at hmaj
  | some inner => simp

lemma getSerializerByMajorMinor_major_absent {V : Type} (p : XyoPacker V)
    (M m : Nat)
    (hmaj : assocGet p.serializerDeserializerMajorMinorIndex M = none) :
    p.getSerializerByMajorMinor M m = .error .typeError := by
  rw [getSerializerByMajorMinor_eq, hmaj]

lemma encodedSize_one (len : Nat) (h : 1 + len < 256) :
    (encodedSize len 1).length = 1 ∧ readUIntBE (encodedSize len 1) = 1 + len := by
  have he : encodedSize len 1 = beBytes 1 (len + 1) := by simp [encodedSize]
  rw [he]
  refine ⟨beBytes_length 1 _, ?_⟩
  rw [readUIntBE_beBytes_one]
  omega

lemma encodedSize_two (len : Nat) (h : 2 + len < 65536) :
    (encodedSize len 2).length = 2 ∧ readUIntBE (encodedSize len 2) = 2 + len := by
  have he : encodedSize len 2 = beBytes 2 (len + 2) := by simp [encodedSize]
  rw [he]
  refine ⟨beBytes_length 2 _, ?_⟩
  rw [readUIntBE_beBytes_two]
  omega

lemma encodedSize_four (len : Nat) (h : 4 + len < 4294967296) :
    (encodedSize len 4).length = 4 ∧ readUIntBE (encodedSize len 4) = 4 + len := by
  have he : encodedSize len 4 = beBytes 4 (len + 4) := by simp [encodedSize]
  rw [he]
  refine ⟨beBytes_length 4 _, ?_⟩
  rw [readUIntBE_beBytes_four]
  omega

lemma interactionRun_err_of_le4 {β : Type} (cat : Nat) (t1 t3 : List Nat)
    (block : β) (k : Nat) (hk : k ≤ 4) :
    (interactionRun cat t1 t3 block (some k)).2 =
      .error XyoErrorType.errCritical := by
  unfold interactionRun
  by_cases h0 : k ≤ 0
  · simp [h0]
  · by_cases h1 : k ≤ 1
    · simp [h0, h1]
    · by_cases h2 : k ≤ 2
      · simp [h0, h1, h2]
      · simp [h0, h1, h2, hk]

/-- C3: updateOriginChainState sets previousHash to the given hash, increments
the index by exactly one, moves the front waiting signer (if any) to the tail
of the current signers, clears nextPublicKey, and calling it N times starting
from the genesis (empty) state yields index N. -/
theorem c3_update_origin_chain_state {H S P : Type} :
    (∀ (s : XyoOriginChainState H S P) (h : H),
        (updateOriginChainState s h).previousHash = some h
      ∧ (updateOriginChainState s h).index = s.index + 1
      ∧ (updateOriginChainState s h).currentSigners =
          s.currentSigners ++ s.waitingSigners.take 1
      ∧ (updateOriginChainState s h).waitingSigners = s.waitingSigners.tail
      ∧ (updateOriginChainState s h).nextPublicKey = none)
  ∧ ∀ (hashes : List H),
      (hashes.foldl updateOriginChainState
          (genesisState : XyoOriginChainState H S P)).index = hashes.length := by
  constructor
  · intro s h
    refine ⟨rfl, rfl, ?_, rfl, rfl⟩
    cases hw : s.waitingSigners with
    | nil => simp [updateOriginChainState, hw]
    | cons w ws => simp [updateOriginChainState, hw]
  · intro hashes
    rw [foldl_update_index]
    simp [genesisState]

/-- C7: every message sent through the TCP network pipe is written to the
socket as a 4-byte big-endian length field whose value counts itself plus the
payload, followed by the payload bytes. -/
theorem c7_tcp_length_framing (b : List Nat) (hb : b.length + 4 < 4294967296) :
    (tcpSendWrittenBytes b).length = b.length + 4
  ∧ (tcpSendWrittenBytes b).take 4 = beBytes 4 (b.length + 4)
  ∧ readUIntBE ((tcpSendWrittenBytes b).take 4) = b.length + 4
  ∧ (tcpSendWrittenBytes b).drop 4 = b := by
  have hlen : (beBytes 4 (b.length + 4)).length = 4 := beBytes_length 4 _
  have htake : (tcpSendWrittenBytes b).take 4 = beBytes 4 (b.length + 4) := by
    unfold tcpSendWrittenBytes padBufferWithSize
    exact List.take_left' hlen
  refine ⟨?_, htake, ?_, ?_⟩
  · unfold tcpSendWrittenBytes padBufferWithSize
    simp [hlen]
    omega
  · rw [htake, readUIntBE_beBytes_four, Nat.mod_eq_of_lt hb]
  · unfold tcpSendWrittenBytes padBufferWithSize
    exact List.drop_left' hlen

/-- C7 witness: the framing theorem evaluated on the concrete message
[5, 6, 7]. -/
theorem c7_witness :
    (tcpSendWrittenBytes [5, 6, 7]).length = [5, 6, 7].length + 4
  ∧ (tcpSendWrittenBytes [5, 6, 7]).take 4 = beBytes 4 ([5, 6, 7].length + 4)
  ∧ readUIntBE ((tcpSendWrittenBytes [5, 6, 7]).take 4) = [5, 6, 7].length + 4
  ∧ (tcpSendWrittenBytes [5, 6, 7]).drop 4 = [5, 6, 7] :=
  c7_tcp_length_framing [5, 6, 7] (by norm_num)

/-- C4 counterexample: registering a second serializer under the already-used
pair (2, 3) is not rejected: the collection grows to two entries and the
(major, minor) lookup afterwards resolves to the second serializer, which is
not the first, so the first registration is no longer in effect. -/
theorem c4_counterexample :
    (registerSerializerDeserializer
        (registerSerializerDeserializer XyoPacker.empty "first" sampleRawSerializer)
        "second" sampleAltSerializer).serializerDeserializersCollection.length = 2
  ∧ (registerSerializerDeserializer
        (registerSerializerDeserializer XyoPacker.empty "first" sampleRawSerializer)
        "second" sampleAltSerializer).getSerializerByMajorMinor 2 3 =
      .ok (some sampleAltSerializer)
  ∧ (registerSerializerDeserializer
        (registerSerializerDeserializer XyoPacker.empty "first" sampleRawSerializer)
        "second" sampleAltSerializer).getSerializerByMajorMinor 2 3 ≠
      .ok (some sampleRawSerializer) := by
  refine ⟨rfl, rfl, ?_⟩
  intro hcontra
  have h0 : (registerSerializerDeserializer
      (registerSerializerDeserializer XyoPacker.empty "first" sampleRawSerializer)
      "second" sampleAltSerializer).getSerializerByMajorMinor 2 3 =
      Except.ok (some sampleAltSerializer) := rfl
  have h1 := h0.symm.trans hcontra
  injection h1 with h2
  injection h2 with h3
  have h4 := congrArg XYOSerializer.sizeOfBytesToRead h3
  simp [sampleAltSerializer, sampleRawSerializer] at h4

/-- C4 (amended): registering a second serializer with the same (major, minor)
is not rejected; both serializers end up in the collection and the
(major, minor) index is overwritten, so the lookup resolves to the most
recently registered serializer. -/
theorem c4_amended {V : Type} (p : XyoPacker V) (n1 n2 : String)
    (s1 s2 : XYOSerializer V) (hM : s2.major = s1.major)
    (hm : s2.minor = s1.minor) :
    (registerSerializerDeserializer (registerSerializerDeserializer p n1 s1)
        n2 s2).serializerDeserializersCollection =
      p.serializerDeserializersCollection ++ [s1, s2]
  ∧ (registerSerializerDeserializer (registerSerializerDeserializer p n1 s1)
        n2 s2).getSerializerByMajorMinor s1.major s1.minor = .ok (some s2) := by
  constructor
  · rw [register_collection, register_collection, List.append_assoc]
    rfl
  · have hmaj : (assocGet (registerSerializerDeserializer
        (registerSerializerDeserializer p n1 s1)
        n2 s2).serializerDeserializerMajorMinorIndex s1.major).isSome = true := by
      rw [register_mmIndex]
      unfold mmSet
      rw [hM, assocGet_assocSet_self]
      rfl
    have hlook : lookupSerializer (registerSerializerDeserializer
        (registerSerializerDeserializer p n1 s1) n2 s2) s1.major s1.minor =
        some s2 := by
      unfold lookupSerializer mmLookup
      rw [register_mmIndex]
      unfold mmSet
      rw [hM, assocGet_assocSet_self, Option.some_bind, ← hm,
        assocGet_assocSet_self, Option.some_bind, register_collection]
      exact List.getElem?_concat_length _ _
    rw [getSerializerByMajorMinor_major_present _ _ _ hmaj, hlook]

/-- C4 witness: the amended duplicate-registration theorem evaluated on the
two concrete sample serializers sharing (2, 3). -/
theorem c4_witness :
    (registerSerializerDeserializer
        (registerSerializerDeserializer XyoPacker.empty "a" sampleRawSerializer)
        "b" sampleAltSerializer).serializerDeserializersCollection =
      XyoPacker.empty.serializerDeserializersCollection ++
        [sampleRawSerializer, sampleAltSerializer]
  ∧ (registerSerializerDeserializer
        (registerSerializerDeserializer XyoPacker.empty "a" sampleRawSerializer)
        "b" sampleAltSerializer).getSerializerByMajorMinor
      sampleRawSerializer.major sampleRawSerializer.minor =
      .ok (some sampleAltSerializer) :=
  c4_amended XyoPacker.empty "a" "b" sampleRawSerializer sampleAltSerializer rfl rfl

/-- C1: for a value whose serializer is registered under (major, minor) and
whose codec pair inverts on that value, deserializing the typed serialization
yields the original value back. -/
theorem c1_typed_round_trip {V : Type} (p : XyoPacker V) (M m : Nat)
    (s : XYOSerializer V) (v : V) (hM : M < 256) (hm : m < 256)
    (hs : lookupSerializer p M m = some s) (hsM : s.major = M) (hsm : s.minor = m)
    (hinv : s.deser (encodedSize (s.ser v).length s.sizeOfBytesToRead ++ s.ser v)
      = some v) :
    ∃ bytes, p.serialize v M m (some true) = .ok bytes ∧
      p.deserialize bytes = .ok v := by
  refine ⟨makeTyped (s.ser v) s, serialize_typed_of_lookup p M m s v hs, ?_⟩
  have hid : s.id = [M, m] := by
    unfold XYOSerializer.id
    rw [hsM, hsm, Nat.mod_eq_of_lt hM, Nat.mod_eq_of_lt hm]
  have hbytes : makeTyped (s.ser v) s =
      M :: m :: (encodedSize (s.ser v).length s.sizeOfBytesToRead ++ s.ser v) := by
    unfold makeTyped
    rw [hid]
    rfl
  rw [hbytes]
  apply deserialize_ok_of_lookup p _ s
  · simp
  · exact hs
  · exact hinv

/-- C1 witness: the round-trip theorem evaluated on the sample packer at
(major, minor) = (2, 3) and the value 7. -/
theorem c1_witness :
    ∃ bytes, samplePacker.serialize 7 2 3 (some true) = .ok bytes ∧
      samplePacker.deserialize bytes = .ok 7 :=
  c1_typed_round_trip samplePacker 2 3 sampleRawSerializer 7 (by decide) (by decide)
    rfl rfl rfl rfl

/-- C5: the packer's deserialize reads the first two bytes as (major, minor)
and dispatches the registered serializer on the remaining bytes; it fails with
an error exactly when the buffer is shorter than two bytes, the pair is not
registered, or the dispatched deserializer itself fails. -/
theorem c5_deserialize_errors {V : Type} (p : XyoPacker V) (buffer : List Nat) :
    (buffer.length < 2 → p.deserialize buffer = .error .errCreatorMapping)
  ∧ (∀ s v, 2 ≤ buffer.length →
      lookupSerializer p buffer.headI (buffer.drop 1).headI = some s →
      s.deser (buffer.drop 2) = some v → p.deserialize buffer = .ok v)
  ∧ (∀ s, 2 ≤ buffer.length →
      lookupSerializer p buffer.headI (buffer.drop 1).headI = some s →
      s.deser (buffer.drop 2) = none →
      p.deserialize buffer = .error .errSubDeserialize)
  ∧ (2 ≤ buffer.length →
      lookupSerializer p buffer.headI (buffer.drop 1).headI = none →
      p.deserialize buffer = .error .errCreatorMapping)
  ∧ ((∃ v, p.deserialize buffer = .ok v) ↔
      2 ≤ buffer.length ∧
        ∃ s, lookupSerializer p buffer.headI (buffer.drop 1).headI = some s ∧
          (s.deser (buffer.drop 2)).isSome = true) := by
  refine ⟨?_, ?_, ?_, ?_, ?_⟩
  · intro hlt
    unfold XyoPacker.deserialize
    rw [if_pos hlt]
  · intro s v h2 hs hd
    exact deserialize_ok_of_lookup p buffer s v h2 hs hd
  · intro s h2 hs hd
    exact deserialize_err_of_lookup p buffer s h2 hs hd
  · intro h2 hs
    exact deserialize_err_of_no_lookup p buffer h2 hs
  · constructor
    · rintro ⟨v, hv⟩
      by_cases hlt : buffer.length < 2
      · unfold XyoPacker.deserialize at hv
        rw [if_pos hlt] at hv
        exact Except.noConfusion hv
      · have h2le : 2 ≤ buffer.length := by omega
        cases hs : lookupSerializer p buffer.headI (buffer.drop 1).headI with
        | none =>
          rw [deserialize_err_of_no_lookup p buffer h2le hs] at hv
          exact Except.noConfusion hv
        | some s =>
          cases hd : s.deser (buffer.drop 2) with
          | none =>
            rw [deserialize_err_of_lookup p buffer s h2le hs hd] at hv
            exact Except.noConfusion hv
          | some w =>
            exact ⟨h2le, s, rfl, by rw [hd]; rfl⟩
    · rintro ⟨h2le, s, hs, hsome⟩
      cases hd : s.deser (buffer.drop 2) with
      | none =>
        rw [hd] at hsome
        simp at hsome
      | some w =>
        exact ⟨w, deserialize_ok_of_lookup p buffer s w h2le hs hd⟩

/-- C5 witness: the deserialize error characterisation evaluated on the sample
packer with a short buffer, a registered buffer and an unregistered buffer. -/
theorem c5_witness :
    samplePacker.deserialize [9] = .error XyoErrorType.errCreatorMapping
  ∧ samplePacker.deserialize [2, 3, 7] = .ok 7
  ∧ samplePacker.deserialize [9, 9, 9] = .error XyoErrorType.errCreatorMapping := by
  refine ⟨?_, ?_, ?_⟩
  · exact (c5_deserialize_errors samplePacker [9]).1 (by decide)
  · exact (c5_deserialize_errors samplePacker [2, 3, 7]).2.1 sampleRawSerializer 7
      (by decide) rfl rfl
  · exact (c5_deserialize_errors samplePacker [9, 9, 9]).2.2.2.1 (by decide) rfl

/-- C6: typed framing is one major byte, one minor byte, the length field,
then the payload; untyped framing is the same without the two type bytes; for
widths 1, 2 and 4 the length field is that many big-endian bytes holding the
width plus the payload size (the length counts itself), and width 0 produces
no length field. -/
theorem c6_framing {V : Type} (p : XyoPacker V) (M m : Nat) (s : XYOSerializer V)
    (v : V) (hM : M < 256) (hm : m < 256)
    (hs : lookupSerializer p M m = some s) (hsM : s.major = M)
    (hsm : s.minor = m) :
    p.serialize v M m (some true) =
      .ok (M :: m :: (encodedSize (s.ser v).length s.sizeOfBytesToRead ++ s.ser v))
  ∧ p.serialize v M m (some false) =
      .ok (encodedSize (s.ser v).length s.sizeOfBytesToRead ++ s.ser v)
  ∧ ((s.sizeOfBytesToRead = 1 ∨ s.sizeOfBytesToRead = 2 ∨ s.sizeOfBytesToRead = 4) →
      s.sizeOfBytesToRead + (s.ser v).length < 256 ^ s.sizeOfBytesToRead →
        (encodedSize (s.ser v).length s.sizeOfBytesToRead).length =
          s.sizeOfBytesToRead
      ∧ readUIntBE (encodedSize (s.ser v).length s.sizeOfBytesToRead) =
          s.sizeOfBytesToRead + (s.ser v).length)
  ∧ (s.sizeOfBytesToRead = 0 →
      encodedSize (s.ser v).length s.sizeOfBytesToRead = []) := by
  have hid : s.id = [M, m] := by
    unfold XYOSerializer.id
    rw [hsM, hsm, Nat.mod_eq_of_lt hM, Nat.mod_eq_of_lt hm]
  refine ⟨?_, ?_, ?_, ?_⟩
  · rw [serialize_typed_of_lookup p M m s v hs]
    unfold makeTyped
    rw [hid]
    rfl
  · rw [serialize_untyped_of_lookup p M m s v hs]
    rfl
  · rintro (h1 | h2 | h4) hrange
    · rw [h1] at hrange ⊢
      norm_num at hrange
      exact encodedSize_one (s.ser v).length hrange
    · rw [h2] at hrange ⊢
      norm_num at hrange
      exact encodedSize_two (s.ser v).length hrange
    · rw [h4] at hrange ⊢
      norm_num at hrange
      exact encodedSize_four (s.ser v).length hrange
  · intro h0
    rw [h0]
    simp [encodedSize]

/-- C6 witness: the framing theorem evaluated on the sample packer at
(major, minor) = (4, 5), width 1 and the value 7, giving the concrete typed
bytes [4, 5, 2, 7] and untyped bytes [2, 7]. -/
theorem c6_witness :
    samplePacker.serialize 7 4 5 (some true) = .ok [4, 5, 2, 7]
  ∧ samplePacker.serialize 7 4 5 (some false) = .ok [2, 7]
  ∧ readUIntBE (encodedSize (sampleSizedSerializer.ser 7).length
      sampleSizedSerializer.sizeOfBytesToRead) = 2 := by
  obtain ⟨h1, h2, h3, h4⟩ := c6_framing samplePacker 4 5 sampleSizedSerializer 7
    (by decide) (by decide) rfl rfl rfl
  have h5 := h3 (Or.inl rfl) (by decide)
  exact ⟨h1, h2, h5.2⟩

/-- C2: every chain the verifier accepts has ChainIndex of block k equal to the
ChainIndex of block 0 plus k and the PreviousHash of block k byte-equal to the
hash of block k-1; and for two sequentially linked blocks the verifier accepts
[B1, B2] and rejects [B2, B1]. -/
theorem c2_verifier_linkage (intact : XyoVerifierBlock → Bool)
    (hash : XyoVerifierBlock → List Nat) :
    (∀ C, verifyOriginChain intact hash C = true →
       (∀ k b0 bk, C[0]? = some b0 → C[k]? = some bk →
          ∃ i0, b0.chainIndex = some i0 ∧ bk.chainIndex = some (i0 + k))
     ∧ (∀ k bk bk1, C[k]? = some bk → C[k + 1]? = some bk1 →
          bk1.previousHash = some (hash bk)))
  ∧ (∀ B1 B2 i0, intact B1 = true → intact B2 = true →
       B1.chainIndex = some i0 → B2.chainIndex = some (i0 + 1) →
       B2.previousHash = some (hash B1) →
       (∀ pk, B1.nextPublicKey = some pk → B2.publicKeys.contains pk = true) →
       verifyOriginChain intact hash [B1, B2] = true
     ∧ verifyOriginChain intact hash [B2, B1] = false) := by
  constructor
  · intro C hC
    cases C with
    | nil => constructor <;> intros <;> simp_all
    | cons b rest =>
      simp only [verifyOriginChain] at hC
      cases hb : b.chainIndex with
      | none =>
        rw [hb] at hC
        exact absurd hC (by simp)
      | some base =>
        simp only [hb] at hC
        obtain ⟨L1, L2, L3⟩ := verifyFrom_linkage intact hash (b :: rest) base none hC
        constructor
        · intro k b0 bk h0 hk
          have hb0 : b0 = b := by
            rw [List.getElem?_cons_zero, Option.some.injEq] at h0
            exact h0.symm
          exact ⟨base, by rw [hb0, hb], L1 k bk hk⟩
        · intro k bk bk1 hk hk1
          exact L3 k bk bk1 hk hk1
  · intro B1 B2 i0 hi1 hi2 hc1 hc2 hph hnp
    constructor
    · cases hn : B1.nextPublicKey with
      | none =>
        simp [verifyOriginChain, verifyOriginChainFrom, hc1, hc2, hi1, hi2, hph, hn]
      | some pk =>
        have hmem : pk ∈ B2.publicKeys := by
          have hcont := hnp pk hn
          simpa using hcont
        simp [verifyOriginChain, verifyOriginChainFrom, hc1, hc2, hi1, hi2, hph,
          hn, hmem]
    · have hfalse : (B1.chainIndex == some (i0 + 1 + 1)) = false := by
        rw [hc1, beq_eq_false_iff_ne]
        intro hcontra
        have := Option.some.inj hcontra
        omega
      simp [verifyOriginChain, verifyOriginChainFrom, hc1, hc2, hi1, hi2, hfalse]
      intro hcontra
      exact absurd hcontra (by omega)

/-- C2 witness: the linkage theorem evaluated on two concrete blocks with
indexes 0 and 1 linked by a concrete hash function: the pair is accepted in
order and rejected reversed. -/
theorem c2_witness :
    verifyOriginChain (fun _ => true) (fun b => (b.chainIndex.getD 0) :: [40])
      [⟨some 0, none, none, []⟩, ⟨some 1, some [0, 40], none, []⟩] = true
  ∧ verifyOriginChain (fun _ => true) (fun b => (b.chainIndex.getD 0) :: [40])
      [⟨some 1, some [0, 40], none, []⟩, ⟨some 0, none, none, []⟩] = false :=
  (c2_verifier_linkage (fun _ => true) (fun b => (b.chainIndex.getD 0) :: [40])).2
    ⟨some 0, none, none, []⟩ ⟨some 1, some [0, 40], none, []⟩ 0 rfl rfl rfl rfl rfl
    (fun _pk hpk => Option.noConfusion hpk)

/-- C8: in a completed interaction, only the first outbound message carries the
catalogue header: one byte holding the catalogue-size constant 4 followed by
the 4-byte big-endian catalogue bitmask, then the transfer bytes; the second
outbound message is the bare transfer-3 bytes. -/
theorem c8_catalogue_header {β : Type} (cat : Nat) (t1 t3 : List Nat) (block : β)
    (hcat : cat < 4294967296) :
    (interactionRun cat t1 t3 block none).1 =
      [(boundWitnessRequestBytes cat t1, true), (t3, false)]
  ∧ boundWitnessRequestBytes cat t1 = [4] ++ beBytes 4 cat ++ t1
  ∧ (boundWitnessRequestBytes cat t1).take 1 = [4]
  ∧ readUIntBE (((boundWitnessRequestBytes cat t1).drop 1).take 4) = cat
  ∧ (boundWitnessRequestBytes cat t1).drop 5 = t1 := by
  have hdrop1 : (boundWitnessRequestBytes cat t1).drop 1 = beBytes 4 cat ++ t1 := rfl
  refine ⟨rfl, rfl, rfl, ?_, ?_⟩
  · rw [hdrop1, List.take_left' (beBytes_length 4 cat), readUIntBE_beBytes_four,
      Nat.mod_eq_of_lt hcat]
  · have h5 : (5 : Nat) = 1 + 4 := rfl
    rw [h5, ← List.drop_drop, hdrop1]
    exact List.drop_left' (beBytes_length 4 cat)

/-- C8 witness: the catalogue-header theorem evaluated at the concrete bitmask
1 and transfers [9] and [8]. -/
theorem c8_witness :
    (interactionRun 1 [9] [8] (42 : Nat) none).1 =
      [(boundWitnessRequestBytes 1 [9], true), ([8], false)]
  ∧ boundWitnessRequestBytes 1 [9] = [4] ++ beBytes 4 1 ++ [9]
  ∧ (boundWitnessRequestBytes 1 [9]).take 1 = [4]
  ∧ readUIntBE (((boundWitnessRequestBytes 1 [9]).drop 1).take 4) = 1
  ∧ (boundWitnessRequestBytes 1 [9]).drop 5 = [9] :=
  c8_catalogue_header 1 [9] [8] 42 (by norm_num)

/-- C9 counterexample: the disconnect handler fires during the second awaited
send (suspension point 5), which is an awaited-send point, yet the driver still
resolves with the completed block rather than the peer-disconnected error. -/
theorem c9_counterexample :
    (interactionRun 1 [9] [8] (42 : Nat) (some 5)).2 = .ok 42
  ∧ (interactionRun 1 [9] [8] (42 : Nat) (some 5)).2 ≠
      .error XyoErrorType.errCritical := by
  refine ⟨rfl, ?_⟩
  intro hcontra
  have h0 : (interactionRun 1 [9] [8] (42 : Nat) (some 5)).2 = Except.ok 42 := rfl
  exact Except.noConfusion (h0.symm.trans hcontra)

/-- C9 (amended): a disconnect observed at any suspension point up to and
including the integration of the response (points 1 to 4, which cover every
point before the driver's final disconnect check) makes the driver settle with
the peer-disconnected error and emit no block; the driver resolves with the
completed block exactly when no disconnect fires before suspension point 5. -/
theorem c9_disconnect_behaviour {β : Type} (cat : Nat) (t1 t3 : List Nat)
    (block : β) :
    (∀ k, 1 ≤ k → k ≤ 4 →
        (interactionRun cat t1 t3 block (some k)).2 =
          .error XyoErrorType.errCritical
      ∧ ∀ b, (interactionRun cat t1 t3 block (some k)).2 ≠ .ok b)
  ∧ (∀ fireAt, (interactionRun cat t1 t3 block fireAt).2 = .ok block ↔
        ∀ k, fireAt = some k → 5 ≤ k) := by
  constructor
  · intro k h1 h4
    have herr := interactionRun_err_of_le4 cat t1 t3 block k h4
    refine ⟨herr, ?_⟩
    intro b hcontra
    rw [herr] at hcontra
    exact Except.noConfusion hcontra
  · intro fireAt
    cases fireAt with
    | none => simp [interactionRun]
    | some k =>
      constructor
      · intro hok j hj
        have hjk : k = j := Option.some.inj hj
        subst hjk
        by_contra h5
        have hk4 : k ≤ 4 := by omega
        rw [interactionRun_err_of_le4 cat t1 t3 block k hk4] at hok
        exact Except.noConfusion hok
      · intro hall
        have h5 : 5 ≤ k := hall k rfl
        simp [interactionRun, show ¬ k ≤ 0 by omega, show ¬ k ≤ 1 by omega,
          show ¬ k ≤ 2 by omega, show ¬ k ≤ 4 by omega]

/-- C9 witness: the amended disconnect theorem evaluated at the concrete
schedule with a disconnect during suspension point 3 (rejects) and with no
disconnect (resolves with the block). -/
theorem c9_witness :
    (interactionRun 1 [9] [8] (42 : Nat) (some 3)).2 =
      .error XyoErrorType.errCritical
  ∧ (interactionRun 1 [9] [8] (42 : Nat) none).2 = .ok 42 := by
  refine ⟨((c9_disconnect_behaviour 1 [9] [8] 42).1 3 (by decide) (by decide)).1, ?_⟩
  exact ((c9_disconnect_behaviour 1 [9] [8] 42).2 none).mpr
    (fun k hk => Option.noConfusion hk)

/-- C10: over any registration trace, getSerializerByMajorMinor returns the
most recently registered serializer for a registered (major, minor) pair,
returns undefined when the major has a registration but the minor does not
(the filtered trace is empty, so the mapped getLast? is none), and raises a
TypeError when no serializer with that major was ever registered. -/
theorem c10_lookup_totality {V : Type} (regs : List (String × XYOSerializer V))
    (M m : Nat) :
    ((¬ ∃ r ∈ regs, r.2.major = M) →
       (applyRegs regs).getSerializerByMajorMinor M m =
         .error XyoErrorType.typeError)
  ∧ ((∃ r ∈ regs, r.2.major = M) →
       (applyRegs regs).getSerializerByMajorMinor M m =
         .ok (((regs.filter fun q =>
            decide (q.2.major = M ∧ q.2.minor = m)).getLast?).map Prod.snd)) := by
  obtain ⟨h1, h2, h3⟩ := applyRegs_spec M m regs
  constructor
  · intro hno
    have hfalse : (regs.any fun q => decide (q.2.major = M)) = false := by
      cases hany : regs.any fun q => decide (q.2.major = M) with
      | false => rfl
      | true =>
        exfalso
        simp only [List.any_eq_true, decide_eq_true_eq] at hany
        exact hno hany
    have hnone : assocGet (applyRegs regs).serializerDeserializerMajorMinorIndex M =
        none := by
      cases hng : assocGet (applyRegs regs).serializerDeserializerMajorMinorIndex M with
      | none => rfl
      | some x =>
        rw [hng, hfalse] at h1
        simp at h1
    exact getSerializerByMajorMinor_major_absent _ _ _ hnone
  · intro hyes
    have htrue : (regs.any fun q => decide (q.2.major = M)) = true := by
      simp only [List.any_eq_true, decide_eq_true_eq]
      exact hyes
    have hsome : (assocGet
        (applyRegs regs).serializerDeserializerMajorMinorIndex M).isSome = true := by
      rw [h1, htrue]
    rw [getSerializerByMajorMinor_major_present _ _ _ hsome, h3]

/-- C10 witness: the lookup theorem evaluated on the one-element registration
trace holding the sample serializer at (2, 3): the registered pair resolves to
it, the unregistered minor 9 under major 2 yields undefined, and the
unregistered major 7 raises the TypeError. -/
theorem c10_witness :
    (applyRegs [("raw", sampleRawSerializer)]).getSerializerByMajorMinor 2 3 =
      .ok (some sampleRawSerializer)
  ∧ (applyRegs [("raw", sampleRawSerializer)]).getSerializerByMajorMinor 2 9 =
      .ok none
  ∧ (applyRegs [("raw", sampleRawSerializer)]).getSerializerByMajorMinor 7 3 =
      .error XyoErrorType.typeError := by
  refine ⟨?_, ?_, ?_⟩
  · exact (c10_lookup_totality [("raw", sampleRawSerializer)] 2 3).2
      ⟨("raw", sampleRawSerializer), by simp, rfl⟩
  · exact (c10_lookup_totality [("raw", sampleRawSerializer)] 2 9).2
      ⟨("raw", sampleRawSerializer), by simp, rfl⟩
  · refine (c10_lookup_totality [("raw", sampleRawSerializer)] 7 3).1 ?_
    rintro ⟨r, hr, hmaj⟩
    simp only [List.mem_singleton] at hr
    rw [hr] at hmaj
    simp [sampleRawSerializer] at hmaj
